import Mathlib

/-!
Verification development for the data-ingestion service.

The definitions below are a shallow embedding of the program's source:
`sanitize_col`, `table_name_from_endpoint`, `flatten_json`, `try_parse_timestamp`,
`infer_pg_type`, `unify_types`, `extract_rows_from_payload` and the column-type
resolution loop of `insert_rows_batch` are embedded from `src/pg_service.py`;
`drop_orphan_schemas` is embedded from `src/main.py`.  The stateful parts of
`insert_rows_batch` (DDL, chunked `executemany`, the single `conn.commit()` at the
end of the chunk loop) are embedded as explicit state passing over a `Db` record,
with injected failure oracles (`failAdd`, `failChunk`, `failDrop`) standing for
exceptions raised by the database driver.

Python string/char semantics are modelled on ASCII code points (`Char.toNat`):
the regular-expression character classes in the source (`[^a-zA-Z0-9_]`, `\d`)
are ASCII-only, and every character surviving the first sanitization stage is
ASCII, so `.lower()`, `.isdigit()`, `.isupper()`, `.islower()` agree with their
ASCII restrictions on all values they are applied to.
-/

/-! ### Character-level helpers (ASCII model of the Python predicates) -/

/-- The regex class `[a-zA-Z0-9_]` from `sanitize_col` (`src/pg_service.py:33`). -/
def isWordChar (c : Char) : Bool :=
  (65 ≤ c.toNat && c.toNat ≤ 90) || (97 ≤ c.toNat && c.toNat ≤ 122) ||
  (48 ≤ c.toNat && c.toNat ≤ 57) || (c.toNat == 95)

/-- ASCII whitespace as stripped by Python `str.strip()`. -/
def pyIsSpace (c : Char) : Bool :=
  c.toNat == 32 || (9 ≤ c.toNat && c.toNat ≤ 13)

/-- ASCII `str.isdigit` on one character. -/
def isDigitChar (c : Char) : Bool := 48 ≤ c.toNat && c.toNat ≤ 57

/-- ASCII `str.isupper` on one character. -/
def isUpperChar (c : Char) : Bool := 65 ≤ c.toNat && c.toNat ≤ 90

/-- ASCII `str.islower` on one character. -/
def isLowerChar (c : Char) : Bool := 97 ≤ c.toNat && c.toNat ≤ 122

/-- ASCII `str.lower` on one character. -/
def lowerChar (c : Char) : Char :=
  if 65 ≤ c.toNat && c.toNat ≤ 90 then Char.ofNat (c.toNat + 32) else c

/-- Characters allowed in a finished identifier: lowercase letter, digit, underscore. -/
def isIdentChar (c : Char) : Bool :=
  (97 ≤ c.toNat && c.toNat ≤ 122) || (48 ≤ c.toNat && c.toNat ≤ 57) || c.toNat == 95

/-- Lexicographic (code-point) strict order on char lists, as Python compares `str`. -/
def strLtChars : List Char → List Char → Bool
  | [], [] => false
  | [], _ :: _ => true
  | _ :: _, [] => false
  | a :: as, b :: bs =>
    if a.toNat < b.toNat then true else if b.toNat < a.toNat then false else strLtChars as bs

/-- Python `a <= b` on strings. -/
def pyStrLe (a b : String) : Bool := !(strLtChars b.data a.data)

/-- Does `cs` start with `pat`? -/
def startsWithChars : List Char → List Char → Bool
  | [], _ => true
  | _ :: _, [] => false
  | p :: ps, c :: cs => p == c && startsWithChars ps cs

/-- Does `cs` contain `pat` as a contiguous substring? -/
def hasSubstrChars : List Char → List Char → Bool
  | pat, [] => startsWithChars pat []
  | pat, c :: cs => startsWithChars pat (c :: cs) || hasSubstrChars pat cs

/-- Python `pat in s` on strings (substring containment). -/
def pyInStr (pat s : String) : Bool := hasSubstrChars pat.data s.data

/-- Python `x in xs` for a string and a list of strings (also set membership in
the model, where Python sets are lists of distinct elements). -/
def strInList (x : String) : List String → Bool
  | [] => false
  | y :: ys => x == y || strInList x ys

/-! ### `sanitize_col` (`src/pg_service.py:32-39`) -/

/-- First stage of `sanitize_col`: `re.sub(r"[^a-zA-Z0-9_]+", "_", ...)`.
Each maximal run of non-word characters is replaced by a single underscore;
the flag records whether we are inside such a run. -/
def subRunsAux : Bool → List Char → List Char
  | _, [] => []
  | inRun, c :: cs =>
    if isWordChar c then c :: subRunsAux false cs
    else if inRun then subRunsAux true cs
    else '_' :: subRunsAux true cs

/-- Second stage of `sanitize_col`: `re.sub(r"_+", "_", ...)`.
Each maximal run of underscores is replaced by a single underscore. -/
def collapseAux : Bool → List Char → List Char
  | _, [] => []
  | prevU, c :: cs =>
    if c == '_' then
      if prevU then collapseAux true cs else '_' :: collapseAux true cs
    else c :: collapseAux false cs

/-- Python `str.strip` with the given character class: drop matching characters
from both ends. -/
def pyStrip (p : Char → Bool) (cs : List Char) : List Char :=
  List.rdropWhile p (List.dropWhile p cs)

/-- The `if name[0].isdigit(): name = f"c_{name}"` step of `sanitize_col`. -/
def digitGuard (s3 : List Char) : List Char :=
  match s3 with
  | [] => s3
  | c :: _ => if isDigitChar c then 'c' :: '_' :: s3 else s3

/-- `sanitize_col` from `src/pg_service.py:32-39`, on the character list:
strip whitespace, replace runs of non-word characters by `_`, collapse `_` runs,
strip `_` from both ends, lowercase, substitute `col` for an empty result,
prefix `c_` if the result starts with a digit, truncate to 63 characters. -/
def sanitizeChars (cs : List Char) : List Char :=
  let s1 := subRunsAux false (pyStrip pyIsSpace cs)
  let s2 := List.map lowerChar (pyStrip (fun c => c == '_') (collapseAux false s1))
  let s3 := if s2 = [] then ['c', 'o', 'l'] else s2
  List.take 63 (digitGuard s3)

/-- `sanitize_col` from `src/pg_service.py:32-39`. -/
def sanitize_col (name : String) : String := String.mk (sanitizeChars name.data)

/-- Raw key exhibiting the truncation corner of `sanitize_col`:
62 letters `a` followed by `_bc` (65 characters in total). -/
def c1CexKey : String := "aaaaaaaaaaaaaaaaaaaaaaaaaaaaaaaaaaaaaaaaaaaaaaaaaaaaaaaaaaaaaa_bc"

/-! ### `table_name_from_endpoint` (`src/pg_service.py:22-29`) -/

/-- `x.islower()` on an optional character (`false` when absent), used for the
guarded neighbour accesses `endpoint[i - 1].islower()` and
`i + 1 < len(endpoint) and endpoint[i + 1].islower()`. -/
def optIsLower : Option Char → Bool
  | some p => isLowerChar p
  | none => false

/-- The indexed loop of `table_name_from_endpoint`: before an uppercase character
that has a predecessor (`i > 0`) and whose predecessor or successor is lowercase,
an underscore is inserted; every character is lowercased.  `prev` is the previous
character of the original string (`none` at position 0). -/
def camelAux : Option Char → List Char → List Char
  | _, [] => []
  | prev, c :: rest =>
    let mark := isUpperChar c && prev.isSome && (optIsLower prev || optIsLower rest.head?)
    (if mark then ['_', lowerChar c] else [lowerChar c]) ++ camelAux (some c) rest

/-- `.replace("-", "_")` on the character list. -/
def replaceHyphens (cs : List Char) : List Char :=
  cs.map (fun c => if c == '-' then '_' else c)

/-- `table_name_from_endpoint` from `src/pg_service.py:22-29`: camel-boundary
underscores, lowercase, hyphens to underscores, strip underscores from both
ends, prefix `api_`. -/
def table_name_from_endpoint (endpoint : String) : String :=
  "api_" ++ String.mk (pyStrip (fun c => c == '_') (replaceHyphens (camelAux none endpoint.data)))

/-- Modelled from the claim wording of C7 only (not from the source): the claimed
boundary rule (underscore before each uppercase letter preceded or followed by a
lowercase letter, with no position restriction), lowercasing. -/
def claimBoundaryAux : Option Char → List Char → List Char
  | _, [] => []
  | prev, c :: rest =>
    (if isUpperChar c && (optIsLower prev || optIsLower rest.head?)
     then ['_', lowerChar c] else [lowerChar c]) ++
      claimBoundaryAux (some c) rest

/-- Modelled from the claim wording of C7 only (not from the source): boundary
rule, then `sanitize_col`, then the fixed `api_` marker. -/
def tableNameClaimC7 (endpoint : String) : String :=
  "api_" ++ sanitize_col (String.mk (claimBoundaryAux none endpoint.data))

/-- Index-based reformulation of the amended C7 boundary rule: position `i` is
marked when it holds an uppercase letter, `0 < i`, and the character at `i - 1`
or `i + 1` is lowercase. -/
def boundaryMark (cs : List Char) (i : Nat) : Bool :=
  match cs[i]? with
  | none => false
  | some c =>
    isUpperChar c && decide (0 < i) && (optIsLower cs[i - 1]? || optIsLower cs[i + 1]?)

/-- Helper for relating `camelAux` to the index-based rule: the marking decision
at index `i`, where `prev` stands for the character before index 0. -/
def markWithPrev (prev : Option Char) (cs : List Char) (i : Nat) : Bool :=
  match cs[i]? with
  | none => false
  | some c =>
    let pOpt := if i = 0 then prev else cs[i - 1]?
    isUpperChar c && pOpt.isSome && (optIsLower pOpt || optIsLower cs[i + 1]?)

/-- The per-index output of the index-based reformulation (generalised over the
virtual predecessor of position 0). -/
def indexedPiece (prev : Option Char) (cs : List Char) (i : Nat) : List Char :=
  (if markWithPrev prev cs i then ['_'] else []) ++
    (match cs[i]? with
     | some c => [lowerChar c]
     | none => [])

/-- The per-index output of the amended C7 boundary rule. -/
def boundaryPiece (cs : List Char) (i : Nat) : List Char :=
  (if boundaryMark cs i then ['_'] else []) ++
    (match cs[i]? with
     | some c => [lowerChar c]
     | none => [])

/-- Index-based reformulation of the amended C7: underscore before each uppercase
letter beyond position 0 whose neighbour is lowercase, lowercase everything,
replace hyphens, strip underscores from both ends, prefix `api_`. -/
def tableNameIndexed (endpoint : String) : String :=
  let cs := endpoint.data
  "api_" ++ String.mk (pyStrip (fun c => c == '_')
    (replaceHyphens ((List.range cs.length).flatMap (boundaryPiece cs))))

/-! ### JSON values -/

mutual
/-- JSON values as received from the API: the closed union over which
`infer_pg_type`, `flatten_json` and `extract_rows_from_payload` dispatch.
Python `bool` is checked before `int` in the source, so the two are separate
constructors here; `num` covers `float`/`Decimal` (only the kind matters). -/
inductive JValue where
  | null
  | bool (b : Bool)
  | int (n : Int)
  | num (q : Rat)
  | str (s : String)
  | arr (xs : JArr)
  | obj (fields : JObj)
inductive JArr where
  | nil
  | cons (v : JValue) (rest : JArr)
inductive JObj where
  | nil
  | cons (k : String) (v : JValue) (rest : JObj)
end

deriving instance DecidableEq for JValue
deriving instance DecidableEq for JArr
deriving instance DecidableEq for JObj

/-- Build a `JObj` from a list of key-value pairs (insertion order preserved,
as in a Python dict literal). -/
def jobj : List (String × JValue) → JObj
  | [] => JObj.nil
  | (k, v) :: rest => JObj.cons k v (jobj rest)

/-- Build a `JArr` from a list. -/
def jarr : List JValue → JArr
  | [] => JArr.nil
  | v :: rest => JArr.cons v (jarr rest)

def JArr.toList : JArr → List JValue
  | JArr.nil => []
  | JArr.cons v rest => v :: JArr.toList rest

/-- Python dict key lookup (`"dados" in payload` / `payload["dados"]`). -/
def lookupJObj : JObj → String → Option JValue
  | JObj.nil, _ => none
  | JObj.cons k v rest, key => if k == key then some v else lookupJObj rest key

/-- A flattened record: sanitized column name to JSON value, insertion-ordered
as a Python dict. -/
abbrev Record := List (String × JValue)

/-! ### `try_parse_timestamp` (`src/pg_service.py:57-60`) -/

/-- Consume exactly `n` ASCII digits (`\d{n}`). -/
def digitsN : Nat → List Char → Option (List Char)
  | 0, cs => some cs
  | _ + 1, [] => none
  | n + 1, c :: cs => if isDigitChar c then digitsN n cs else none

/-- Consume one expected literal character. -/
def expectChar (ch : Char) : List Char → Option (List Char)
  | [] => none
  | c :: cs => if c == ch then some cs else none

/-- The regex anchor `$` in Python: end of string, or just before one final
newline. -/
def atEnd : List Char → Bool
  | [] => true
  | ['\n'] => true
  | _ => false

/-- The optional time part `[ T]\d{2}:\d{2}:\d{2}(\.\d+)?(Z)?` followed by `$`. -/
def tpTimePart (cs : List Char) : Bool :=
  match cs with
  | [] => false
  | c :: rest =>
    if c == ' ' || c == 'T' then
      match digitsN 2 rest with
      | none => false
      | some r1 =>
        match expectChar ':' r1 with
        | none => false
        | some r2 =>
          match digitsN 2 r2 with
          | none => false
          | some r3 =>
            match expectChar ':' r3 with
            | none => false
            | some r4 =>
              match digitsN 2 r4 with
              | none => false
              | some r5 =>
                let r6 : Option (List Char) := match r5 with
                  | '.' :: d :: ds =>
                    if isDigitChar d then some ((d :: ds).dropWhile isDigitChar) else none
                  | _ => none
                let r7 := match r6 with
                  | some r => r
                  | none => r5
                match r7 with
                | 'Z' :: r8 => atEnd r8
                | r8 => atEnd r8
    else false

/-- `try_parse_timestamp` from `src/pg_service.py:57-60`:
`re.match(r"^\d{4}-\d{2}-\d{2}([ T]\d{2}:\d{2}:\d{2}(\.\d+)?(Z)?)?$", s)`.
The regex is deterministic (each optional group either matches maximally or the
anchor must hold immediately), so it is embedded as a straight-line parser. -/
def try_parse_timestamp (s : String) : Bool :=
  match digitsN 4 s.data with
  | none => false
  | some r1 =>
    match expectChar '-' r1 with
    | none => false
    | some r2 =>
      match digitsN 2 r2 with
      | none => false
      | some r3 =>
        match expectChar '-' r3 with
        | none => false
        | some r4 =>
          match digitsN 2 r4 with
          | none => false
          | some r5 => atEnd r5 || tpTimePart r5

/-! ### `infer_pg_type` and `unify_types` (`src/pg_service.py:63-94`) -/

/-- `infer_pg_type` from `src/pg_service.py:63-78`. -/
def infer_pg_type : JValue → String
  | JValue.null => "text"
  | JValue.bool _ => "boolean"
  | JValue.int _ => "bigint"
  | JValue.num _ => "numeric"
  | JValue.str s =>
    if try_parse_timestamp s then "timestamptz"
    else if s.length ≤ 255 then "varchar(255)" else "text"
  | JValue.arr _ => "jsonb"
  | JValue.obj _ => "jsonb"

/-- `unify_types` from `src/pg_service.py:81-94`.  `"jsonb" in (t1, t2)` is tuple
membership (equality); `"varchar" in t1` is substring containment. -/
def unify_types (t1 t2 : String) : String :=
  if t1 = t2 then t1
  else if t1 = "jsonb" ∨ t2 = "jsonb" then "jsonb"
  else if (t1 = "numeric" ∧ t2 = "bigint") ∨ (t2 = "numeric" ∧ t1 = "bigint") then "numeric"
  else if t1 = "timestamptz" ∨ t2 = "timestamptz" then "text"
  else if t1 = "text" ∨ t2 = "text" then "text"
  else if (pyInStr "varchar" t1 ∨ pyInStr "varchar" t2) ∧
          (t1 = "bigint" ∨ t1 = "numeric" ∨ t2 = "bigint" ∨ t2 = "numeric") then "text"
  else "text"

/-- The codomain of `infer_pg_type`: every type tag the inference can produce. -/
def inference_codomain : List String :=
  ["text", "boolean", "bigint", "numeric", "timestamptz", "varchar(255)", "jsonb"]

/-! ### `flatten_json` (`src/pg_service.py:42-54`) -/

/-- Python dict item assignment `items[k] = v`: replace in place if the key
exists, else append. -/
def updateAssoc {α : Type} : List (String × α) → String → α → List (String × α)
  | [], k, v => [(k, v)]
  | (k0, v0) :: rest, k, v =>
    if k0 == k then (k0, v) :: rest else (k0, v0) :: updateAssoc rest k v

/-- Python `items.update(new)`: assign every item of `new` into `items` in order. -/
def pyDictUpdate {α : Type} (items new : List (String × α)) : List (String × α) :=
  new.foldl (fun acc kv => updateAssoc acc kv.1 kv.2) items

/-- Python dict `.get` / `in` on a flattened record. -/
def lookupAssoc {α : Type} : List (String × α) → String → Option α
  | [], _ => none
  | (k, v) :: rest, key => if k == key then some v else lookupAssoc rest key

mutual
/-- The loop of `flatten_json` (`src/pg_service.py:42-54`) over the items of one
object, carrying the accumulated `items` dict. -/
def flattenLoop : JObj → String → Record → Record
  | JObj.nil, _, items => items
  | JObj.cons k v rest, parent, items =>
    flattenLoop rest parent
      (flattenUpd v (sanitize_col (if parent == "" then k else parent ++ "_" ++ k)) items)
/-- One item of the `flatten_json` loop: a nested object is flattened under the
compound key and merged with `items.update(...)`; a list or scalar is assigned
directly. -/
def flattenUpd : JValue → String → Record → Record
  | JValue.obj g, newKey, items => pyDictUpdate items (flattenLoop g newKey [])
  | v, newKey, items => updateAssoc items newKey v
end

/-- `flatten_json` from `src/pg_service.py:42-54` (separator fixed to `_`). -/
def flatten_json (fields : JObj) (parent : String) : Record :=
  flattenLoop fields parent []

/-! ### `extract_rows_from_payload` (`src/pg_service.py:186-202`) -/

/-- One element of the chosen record source: a dict is flattened, anything else
becomes a one-field record under the fixed key `valor`. -/
def rowOfItem : JValue → Record
  | JValue.obj f => flatten_json f ""
  | item => [("valor", item)]

/-- `extract_rows_from_payload` from `src/pg_service.py:186-202`. -/
def extract_rows_from_payload (payload : JValue) : List Record :=
  let data : List JValue :=
    match payload with
    | JValue.obj fields =>
      match lookupJObj fields "dados" with
      | some (JValue.arr l) => JArr.toList l
      | _ => [JValue.obj fields]
    | JValue.arr l => JArr.toList l
    | other => [JValue.obj (JObj.cons "valor" other JObj.nil)]
  data.map rowOfItem

/-! ### Column-set and column-type resolution (`src/pg_service.py:217-229`) -/

/-- The three base columns excluded from dynamic columns
(`src/pg_service.py:220`). -/
def base_cols : List String := ["_id", "_fetched_at", "_endpoint"]

/-- Insert into a string list sorted by code-point order (Python `sorted`). -/
def insertStr (x : String) : List String → List String
  | [] => [x]
  | y :: ys => if pyStrLe x y then x :: y :: ys else y :: insertStr x ys

/-- Python `sorted` on a list of strings (insertion sort; the inputs it is
applied to are duplicate-free, so stability is irrelevant). -/
def insertionSortStr : List String → List String
  | [] => []
  | x :: xs => insertStr x (insertionSortStr xs)

/-- Key collection of `src/pg_service.py:217-219`: the union of all record keys. -/
def collectKeys (rows : List Record) : List String :=
  rows.foldl (fun acc r => acc ++ r.map Prod.fst) []

/-- `all_cols` of `src/pg_service.py:217-220`: sorted set of record keys, with
the base columns removed. -/
def all_cols_of (rows : List Record) : List String :=
  (insertionSortStr (collectKeys rows).dedup).filter (fun c => !(strInList c base_cols))

/-- The inner fold of `src/pg_service.py:222-229` for one column: unify the
inferred types of every present, non-null occurrence, defaulting to `text`. -/
def resolve_type_for (rows : List Record) (c : String) : String :=
  (rows.foldl
    (fun cur r =>
      match lookupAssoc r c with
      | some v =>
        if v = JValue.null then cur
        else
          match cur with
          | none => some (infer_pg_type v)
          | some u => some (unify_types u (infer_pg_type v))
      | none => cur)
    none).getD "text"

/-- `col_types` of `src/pg_service.py:222-229`. -/
def resolve_col_types (rows : List Record) : List (String × String) :=
  (all_cols_of rows).map (fun c => (c, resolve_type_for rows c))

/-! ### The stateful part of `insert_rows_batch` (`src/pg_service.py:205-271`) -/

/-- A bound row as passed to `executemany`: the `_endpoint` tag plus one bound
value per dynamic column (`src/pg_service.py:258-265`).  A missing key or a
`None` value binds SQL NULL; serialization of composite values to JSON text
happens at the driver boundary and is not modelled. -/
abbrev PgTuple := String × List (Option JValue)

/-- The persisted state of the target table: its dynamic columns (name and type,
in addition order) and its committed rows. -/
structure DbTable where
  cols : List (String × String)
  rows : List PgTuple
deriving DecidableEq

/-- The persisted state touched by `insert_rows_batch`: whether the schema
exists and the target table (none if dropped / never created). -/
structure Db where
  hasSchema : Bool
  table : Option DbTable
deriving DecidableEq

/-- Build the bound tuple for one record (`src/pg_service.py:258-265`). -/
def rowTuple (endpoint : String) (all_cols : List String) (r : Record) : PgTuple :=
  (endpoint, all_cols.map (fun c =>
    match lookupAssoc r c with
    | some JValue.null => none
    | x => x))

/-- Fuel-indexed chunking; fuel `xs.length` always suffices. -/
def chunksOfAux {α : Type} : Nat → Nat → List α → List (List α)
  | 0, _, _ => []
  | _, _, [] => []
  | fuel + 1, n, x :: xs => ((x :: xs).take n) :: chunksOfAux fuel n ((x :: xs).drop n)

/-- `rows[i:i+batch_size]` for `i in range(0, len(rows), batch_size)`
(`src/pg_service.py:254-255`).  `batch_size = 0` would raise `ValueError` in
Python; the model returns no chunks for it. -/
def chunksOf {α : Type} (n : Nat) (xs : List α) : List (List α) :=
  if n = 0 then [] else chunksOfAux xs.length n xs

/-- The chunk loop of `src/pg_service.py:252-268`: per chunk, build the bound
tuples and run `executemany` (which may raise, modelled by `failChunk` on the
chunk index); `total` accumulates `len(chunk)`.  The accumulated `pending`
tuples belong to the open transaction; they reach the table only via the single
`conn.commit()` after the loop (`src/pg_service.py:270`). -/
def runChunks (failChunk : Nat → Bool) (endpoint : String) (all_cols : List String) :
    Nat → List (List Record) → List PgTuple → Nat → Except Unit (List PgTuple × Nat)
  | _, [], pending, total => Except.ok (pending, total)
  | idx, chunk :: rest, pending, total =>
    if failChunk idx then Except.error ()
    else runChunks failChunk endpoint all_cols (idx + 1) rest
      (pending ++ chunk.map (rowTuple endpoint all_cols)) (total + chunk.length)

/-- The column-add loop of `src/pg_service.py:238-241`: for each required column
not among the existing ones, `add_column` runs `ALTER TABLE ... ADD COLUMN` and
commits (`src/pg_service.py:173-183`).  An exception from `add_column` (modelled
by `failAdd`) propagates out of the loop; the columns added before it stay
committed (`Except.error` carries them). -/
def addColumnsLoop (failAdd : String → Bool) (existing : List String)
    (col_types : List (String × String)) :
    List String → List (String × String) → Except (List (String × String)) (List (String × String))
  | [], acc => Except.ok acc
  | c :: rest, acc =>
    if strInList c existing then addColumnsLoop failAdd existing col_types rest acc
    else if failAdd c then Except.error acc
    else addColumnsLoop failAdd existing col_types rest
      (acc ++ [(c, (lookupAssoc col_types c).getD "text")])

/-- The default of the `recreate_table_each_run` parameter
(`src/pg_service.py:212`). -/
def insert_rows_batch_recreate_default : Bool := true

/-- The value `run_cycle` passes for `recreate_table_each_run`
(`src/main.py:229`). -/
def run_cycle_recreate_arg : Bool := false

/-- `insert_rows_batch` from `src/pg_service.py:205-271` as a state transition:
empty input returns 0 untouched; otherwise resolve columns and types, ensure the
schema, drop the table when `recreate_table_each_run`, ensure the base table,
add the missing columns (each add commits; a failure propagates), then run the
chunk loop and commit once after it — on a chunk failure nothing pending is
committed. -/
def insert_rows_batch (failAdd : String → Bool) (failChunk : Nat → Bool) (endpoint : String)
    (rows : List Record) (batch_size : Nat) (recreate_table_each_run : Bool) (db : Db) :
    Db × Except Unit Nat :=
  if rows = [] then (db, Except.ok 0)
  else
    let all_cols := all_cols_of rows
    let col_types := resolve_col_types rows
    let t0 : DbTable :=
      if recreate_table_each_run then { cols := [], rows := [] }
      else
        match db.table with
        | some t => t
        | none => { cols := [], rows := [] }
    let existing := base_cols ++ t0.cols.map Prod.fst
    match addColumnsLoop failAdd existing col_types all_cols t0.cols with
    | Except.error partialCols =>
      ({ hasSchema := true, table := some { cols := partialCols, rows := t0.rows } },
        Except.error ())
    | Except.ok newCols =>
      match runChunks failChunk endpoint all_cols 0 (chunksOf batch_size rows) [] 0 with
      | Except.error _ =>
        ({ hasSchema := true, table := some { cols := newCols, rows := t0.rows } },
          Except.error ())
      | Except.ok (pending, total) =>
        ({ hasSchema := true, table := some { cols := newCols, rows := t0.rows ++ pending } },
          Except.ok total)

/-! ### `drop_orphan_schemas` (`src/main.py:79-114`) -/

/-- The fixed protected set of `src/main.py:83`. -/
def protected_schemas : List String := ["public", "information_schema", "pg_catalog", "pg_toast"]

/-- Python `str.strip()` on a string. -/
def pyStripStr (s : String) : String := String.mk (pyStrip pyIsSpace s.data)

/-- SQL `nspname LIKE 'pg_%'` from the catalog query of `src/main.py:88-93`:
`_` matches exactly one character, `%` any tail, so this holds for names of
length at least 3 starting with `pg`. -/
def likePgAny (s : String) : Bool :=
  match s.data with
  | 'p' :: 'g' :: _ :: _ => true
  | _ => false

/-- The `keep` set of `src/main.py:80-84`: stripped non-empty configured names
plus the protected set. -/
def keepSetOf (keep_schemas : List String) : List String :=
  (keep_schemas.filter (fun s => !(s == "") && !(pyStripStr s == ""))).map pyStripStr ++
    protected_schemas

/-- The drop loop of `src/main.py:96-113`: skip kept and protected schemas; a
failing `DROP SCHEMA` (modelled by `failDrop`) is logged and skipped without
aborting the loop; each success commits and increments the counter. -/
def dropLoop (failDrop : String → Bool) (keep : List String) : List String → Nat × List String
  | [] => (0, [])
  | s :: rest =>
    if strInList s keep then dropLoop failDrop keep rest
    else if strInList s protected_schemas then dropLoop failDrop keep rest
    else if failDrop s then dropLoop failDrop keep rest
    else
      let r := dropLoop failDrop keep rest
      (r.1 + 1, s :: r.2)

/-- `drop_orphan_schemas` from `src/main.py:79-114`: `catalog` stands for the
contents of `pg_namespace`; the query filter excludes `pg_%` names and
`information_schema`.  Returns the count of dropped schemas and (for the model)
the list of schemas actually dropped. -/
def drop_orphan_schemas (failDrop : String → Bool) (catalog : List String)
    (keep_schemas : List String) : Nat × List String :=
  let existing := catalog.filter (fun s => !(likePgAny s) && !(s == "information_schema"))
  dropLoop failDrop (keepSetOf keep_schemas) existing

/-- No two adjacent underscores: the shape invariant that the underscore-run
collapse stage of `sanitize_col` establishes. -/
def noAdjR (a b : Char) : Prop := ¬(a = '_' ∧ b = '_')

/-! ## Helper lemmas -/

theorem flattenUpd_not_obj (v : JValue) (hv : ∀ g, v ≠ JValue.obj g) (key : String)
    (items : Record) : flattenUpd v key items = updateAssoc items key v := by
  cases v
  case obj g => exact absurd rfl (hv g)
  all_goals rfl

theorem indexedPiece_succ (prev : Option Char) (c : Char) (rest : List Char) (i : Nat) :
    indexedPiece prev (c :: rest) (i + 1) = indexedPiece (some c) rest i := by
  unfold indexedPiece markWithPrev
  cases i with
  | zero => simp
  | succ j => simp

theorem flatMap_congr_mem {α β : Type} (l : List α) (f g : α → List β)
    (h : ∀ a ∈ l, f a = g a) : l.flatMap f = l.flatMap g := by
  induction l with
  | nil => rfl
  | cons x xs ih =>
    simp only [List.flatMap_cons]
    rw [h x (by simp), ih (fun a ha => h a (by simp [ha]))]

theorem indexedPiece_zero (prev : Option Char) (c : Char) (rest : List Char) :
    indexedPiece prev (c :: rest) 0 =
      (if isUpperChar c && prev.isSome && (optIsLower prev || optIsLower rest.head?)
       then ['_'] else []) ++ [lowerChar c] := by
  cases rest <;> simp [indexedPiece, markWithPrev]

theorem camelAux_eq_indexed (cs : List Char) : ∀ prev : Option Char,
    camelAux prev cs = (List.range cs.length).flatMap (indexedPiece prev cs) := by
  induction cs with
  | nil => intro prev; rfl
  | cons c rest ih =>
    intro prev
    rw [List.length_cons, List.range_succ_eq_map, List.flatMap_cons, List.flatMap_map]
    have hpieces : ∀ i, indexedPiece prev (c :: rest) (i + 1) = indexedPiece (some c) rest i :=
      indexedPiece_succ prev c rest
    have h2 : (List.range rest.length).flatMap (fun i => indexedPiece prev (c :: rest) (i + 1)) =
        (List.range rest.length).flatMap (indexedPiece (some c) rest) :=
      flatMap_congr_mem _ _ _ (fun i _ => hpieces i)
    rw [show (fun i => indexedPiece prev (c :: rest) (Nat.succ i)) =
        (fun i => indexedPiece prev (c :: rest) (i + 1)) from rfl, h2, ← ih (some c)]
    have hstep : camelAux prev (c :: rest) =
        (if isUpperChar c && prev.isSome && (optIsLower prev || optIsLower rest.head?)
         then ['_', lowerChar c] else [lowerChar c]) ++ camelAux (some c) rest := rfl
    rw [hstep, indexedPiece_zero]
    cases hb : (isUpperChar c && prev.isSome && (optIsLower prev || optIsLower rest.head?)) <;>
      simp [hb]

theorem markWithPrev_none_eq_boundaryMark (cs : List Char) (i : Nat) :
    markWithPrev none cs i = boundaryMark cs i := by
  unfold markWithPrev boundaryMark
  cases h : cs[i]? with
  | none => rfl
  | some c =>
    cases i with
    | zero => simp [Option.isSome]
    | succ j =>
      have hj : j < cs.length := by
        have hi : j + 1 < cs.length := by
          by_contra hcon
          push_neg at hcon
          rw [List.getElem?_eq_none_iff.mpr hcon] at h
          cases h
        omega
      cases hp : cs[j]? with
      | none =>
        rw [List.getElem?_eq_none_iff] at hp
        omega
      | some p => simp [hp]

/-! ## Claim C7 -/

/-- C7 (counterexample): the claim states that `table_name_from_operation`
sanitizes the boundary-split name (underscore before each uppercase letter
preceded or followed by a lowercase letter, then `sanitize`, then the `api_`
marker).  At `"Obter Clientes"` the code keeps the raw space — it only replaces
hyphens and strips underscores — while the claimed pipeline would sanitize the
space into an underscore, so the two disagree. -/
theorem table_name_from_endpoint_not_sanitized_cex :
    table_name_from_endpoint "Obter Clientes" = "api_obter _clientes" ∧
    tableNameClaimC7 "Obter Clientes" = "api_obter_clientes" ∧
    table_name_from_endpoint "Obter Clientes" ≠ tableNameClaimC7 "Obter Clientes" := by
  decide

/-- C7 (amended): `table_name_from_endpoint` inserts an underscore before each
uppercase letter at a position `i > 0` whose predecessor or successor is a
lowercase letter, lowercases every character, replaces hyphens with underscores,
strips leading and trailing underscores (it does not run the full sanitizer),
and prefixes the fixed marker `api_`; in particular
`table_name_from_endpoint "ObterClientesAtivos" = "api_obter_clientes_ativos"`. -/
theorem table_name_from_endpoint_amended :
    (∀ endpoint : String, table_name_from_endpoint endpoint = tableNameIndexed endpoint) ∧
    table_name_from_endpoint "ObterClientesAtivos" = "api_obter_clientes_ativos" := by
  constructor
  · intro ep
    unfold table_name_from_endpoint tableNameIndexed
    rw [camelAux_eq_indexed]
    have hcong : (List.range ep.data.length).flatMap (indexedPiece none ep.data) =
        (List.range ep.data.length).flatMap (boundaryPiece ep.data) := by
      apply flatMap_congr_mem
      intro i _
      unfold indexedPiece boundaryPiece
      rw [markWithPrev_none_eq_boundaryMark]
    rw [hcong]
  · decide

/-! ## Claim C2 -/

/-- C2: every type `infer_pg_type` produces lies in the seven-tag inference
codomain, and on that codomain `unify_types` is commutative and associative, so
the incrementally unified type of a column does not depend on record order. -/
theorem unify_types_comm_assoc_on_codomain :
    (∀ v : JValue, infer_pg_type v ∈ inference_codomain) ∧
    (∀ a ∈ inference_codomain, ∀ b ∈ inference_codomain, ∀ c ∈ inference_codomain,
      unify_types a b = unify_types b a ∧
      unify_types (unify_types a b) c = unify_types a (unify_types b c)) := by
  constructor
  · intro v
    cases v
    case str s =>
      simp only [infer_pg_type]
      split_ifs <;> simp [inference_codomain]
    all_goals simp [infer_pg_type, inference_codomain]
  · decide

/-- Witness for C2 at concrete tags. -/
theorem unify_types_comm_assoc_witness :
    unify_types "bigint" "numeric" = unify_types "numeric" "bigint" ∧
    unify_types (unify_types "bigint" "numeric") "varchar(255)" =
      unify_types "bigint" (unify_types "numeric" "varchar(255)") :=
  unify_types_comm_assoc_on_codomain.2 "bigint" (by decide) "numeric" (by decide)
    "varchar(255)" (by decide)

/-! ## Claim C4 -/

/-- C4 (counterexample): the claim says `unify` of the timestamp tag with any
other tag of the codomain yields unbounded text; but for `jsonb` the code
returns `jsonb` (the `jsonb` case is checked before the `timestamptz` case). -/
theorem unify_types_timestamptz_jsonb_cex :
    "jsonb" ∈ inference_codomain ∧ "jsonb" ≠ "timestamptz" ∧
    unify_types "timestamptz" "jsonb" = "jsonb" ∧
    unify_types "jsonb" "timestamptz" = "jsonb" ∧
    unify_types "timestamptz" "jsonb" ≠ "text" := by
  decide

/-- C4 (amended): for every codomain tag `t` other than `timestamptz`, unifying
with `timestamptz` (either side) never yields `bigint`, `numeric` or `boolean`;
when `t` is additionally not `jsonb` the result is exactly unbounded `text`
(`jsonb` absorbs instead, as the counterexample shows); and a column holding
`"2024-01-05T10:00:00Z"` in one record and `"not-a-date"` in another resolves
to `text`. -/
theorem unify_types_timestamptz_amended :
    (∀ t ∈ inference_codomain, t ≠ "timestamptz" →
      unify_types "timestamptz" t ≠ "bigint" ∧ unify_types "timestamptz" t ≠ "numeric" ∧
      unify_types "timestamptz" t ≠ "boolean" ∧ unify_types t "timestamptz" ≠ "bigint" ∧
      unify_types t "timestamptz" ≠ "numeric" ∧ unify_types t "timestamptz" ≠ "boolean" ∧
      (t ≠ "jsonb" →
        unify_types "timestamptz" t = "text" ∧ unify_types t "timestamptz" = "text")) ∧
    resolve_col_types [[("criado_em", JValue.str "2024-01-05T10:00:00Z")],
      [("criado_em", JValue.str "not-a-date")]] = [("criado_em", "text")] := by
  decide

/-- Witness for C4 (amended) at `t = "varchar(255)"`. -/
theorem unify_types_timestamptz_amended_witness :
    unify_types "timestamptz" "varchar(255)" = "text" ∧
    unify_types "varchar(255)" "timestamptz" = "text" :=
  (unify_types_timestamptz_amended.1 "varchar(255)" (by decide) (by decide)).2.2.2.2.2.2
    (by decide)

/-! ## Claim C10 -/

/-- C10: when two distinct raw keys of one source object sanitize to the same
identifier, flattening keeps a single column under that identifier bound to the
value of the key processed last; the function is total (no error) and the first
value is silently dropped. -/
theorem flatten_json_sanitize_collision_last_wins (k1 k2 : String) (v1 v2 : JValue)
    (hcol : sanitize_col k1 = sanitize_col k2)
    (h1 : ∀ g, v1 ≠ JValue.obj g) (h2 : ∀ g, v2 ≠ JValue.obj g) :
    flatten_json (jobj [(k1, v1), (k2, v2)]) "" = [(sanitize_col k2, v2)] := by
  have step1 : flatten_json (jobj [(k1, v1), (k2, v2)]) "" =
      flattenLoop (JObj.cons k2 v2 JObj.nil) "" (flattenUpd v1 (sanitize_col k1) []) := rfl
  rw [step1, flattenUpd_not_obj v1 h1]
  have step2 : updateAssoc ([] : Record) (sanitize_col k1) v1 = [(sanitize_col k1, v1)] := rfl
  rw [step2]
  have step3 : ∀ items : Record, flattenLoop (JObj.cons k2 v2 JObj.nil) "" items =
      flattenUpd v2 (sanitize_col k2) items := fun _ => rfl
  rw [step3, flattenUpd_not_obj v2 h2, hcol]
  simp [updateAssoc]

/-- Witness for C10: the raw keys `"a b"` and `"a_b"` both sanitize to `a_b`;
the record keeps only the second value. -/
theorem flatten_json_sanitize_collision_witness :
    flatten_json (jobj [("a b", JValue.str "x"), ("a_b", JValue.str "y")]) "" =
      [(sanitize_col "a_b", JValue.str "y")] :=
  flatten_json_sanitize_collision_last_wins "a b" "a_b" (JValue.str "x") (JValue.str "y")
    (by decide) (fun g h => JValue.noConfusion h) (fun g h => JValue.noConfusion h)

/-! ## Helper lemmas about the batch-loader model -/

theorem dropLoop_eq_filter (failDrop : String → Bool) (keep : List String) :
    ∀ l : List String,
    dropLoop failDrop keep l =
      ((l.filter fun s =>
          !(strInList s keep) && !(strInList s protected_schemas) && !(failDrop s)).length,
        l.filter fun s =>
          !(strInList s keep) && !(strInList s protected_schemas) && !(failDrop s)) := by
  intro l
  induction l with
  | nil => rfl
  | cons s rest ih =>
    by_cases h1 : strInList s keep = true
    · simp [dropLoop, h1, List.filter_cons, ih]
    · by_cases h2 : strInList s protected_schemas = true
      · simp [dropLoop, h1, h2, List.filter_cons, ih]
      · by_cases h3 : failDrop s = true
        · simp [dropLoop, h1, h2, h3, List.filter_cons, ih]
        · simp [dropLoop, h1, h2, h3, List.filter_cons, ih]

theorem runChunks_no_fail (failChunk : Nat → Bool) (endpoint : String) (all_cols : List String)
    (hf : ∀ k, failChunk k = false) :
    ∀ (chunks : List (List Record)) (idx : Nat) (pending : List PgTuple) (total : Nat),
    runChunks failChunk endpoint all_cols idx chunks pending total =
      Except.ok (pending ++ chunks.flatten.map (rowTuple endpoint all_cols),
        total + chunks.flatten.length) := by
  intro chunks
  induction chunks with
  | nil => intro idx pending total; simp [runChunks]
  | cons ch rest ih =>
    intro idx pending total
    simp only [runChunks, hf idx, Bool.false_eq_true, if_false, ih, List.flatten_cons,
      List.map_append, List.length_append, List.append_assoc, Nat.add_assoc]

theorem runChunks_first_fail (failChunk : Nat → Bool) (endpoint : String) (all_cols : List String) :
    ∀ (chunks : List (List Record)) (idx k : Nat) (pending : List PgTuple) (total : Nat),
    k < chunks.length → failChunk (idx + k) = true → (∀ j, j < k → failChunk (idx + j) = false) →
    runChunks failChunk endpoint all_cols idx chunks pending total = Except.error () := by
  intro chunks
  induction chunks with
  | nil =>
    intro idx k pending total hk
    simp at hk
  | cons ch rest ih =>
    intro idx k pending total hk hfk hfj
    cases k with
    | zero =>
      have h0 : failChunk idx = true := by simpa using hfk
      simp [runChunks, h0]
    | succ m =>
      have h0 : failChunk idx = false := by simpa using hfj 0 (Nat.succ_pos m)
      simp only [runChunks, h0, Bool.false_eq_true, if_false]
      apply ih (idx + 1) m
      · simpa using hk
      · have harith : idx + 1 + m = idx + (m + 1) := by omega
        rw [harith]; exact hfk
      · intro j hj
        have harith : idx + 1 + j = idx + (j + 1) := by omega
        rw [harith]; exact hfj (j + 1) (by omega)

theorem addColumnsLoop_no_fail (failAdd : String → Bool) (existing : List String)
    (ct : List (String × String)) (hf : ∀ c, failAdd c = false) :
    ∀ (cols : List String) (acc : List (String × String)),
    addColumnsLoop failAdd existing ct cols acc =
      Except.ok (acc ++ (cols.filter fun c => !(strInList c existing)).map
        (fun c => (c, (lookupAssoc ct c).getD "text"))) := by
  intro cols
  induction cols with
  | nil => intro acc; simp [addColumnsLoop]
  | cons c rest ih =>
    intro acc
    by_cases hc : strInList c existing = true
    · simp [addColumnsLoop, hc, ih, List.filter_cons]
    · simp [addColumnsLoop, hc, hf c, ih, List.filter_cons, List.append_assoc]

theorem addColumnsLoop_first_fail (failAdd : String → Bool) (existing : List String)
    (ct : List (String × String)) :
    ∀ (pre : List String) (c : String) (post : List String) (acc : List (String × String)),
    (∀ d ∈ pre, failAdd d = false) → strInList c existing = false → failAdd c = true →
    addColumnsLoop failAdd existing ct (pre ++ c :: post) acc =
      Except.error (acc ++ (pre.filter fun d => !(strInList d existing)).map
        (fun d => (d, (lookupAssoc ct d).getD "text"))) := by
  intro pre
  induction pre with
  | nil =>
    intro c post acc hpre hc hfc
    simp [addColumnsLoop, hc, hfc]
  | cons d rest ih =>
    intro c post acc hpre hc hfc
    rw [List.cons_append]
    by_cases hd : strInList d existing = true
    · rw [show addColumnsLoop failAdd existing ct (d :: (rest ++ c :: post)) acc =
          (if strInList d existing then addColumnsLoop failAdd existing ct (rest ++ c :: post) acc
           else if failAdd d then Except.error acc
           else addColumnsLoop failAdd existing ct (rest ++ c :: post)
             (acc ++ [(d, (lookupAssoc ct d).getD "text")])) from rfl]
      rw [if_pos hd, ih c post acc (fun x hx => hpre x (by simp [hx])) hc hfc]
      simp [List.filter_cons, hd]
    · have hfd : failAdd d = false := hpre d (by simp)
      rw [show addColumnsLoop failAdd existing ct (d :: (rest ++ c :: post)) acc =
          (if strInList d existing then addColumnsLoop failAdd existing ct (rest ++ c :: post) acc
           else if failAdd d then Except.error acc
           else addColumnsLoop failAdd existing ct (rest ++ c :: post)
             (acc ++ [(d, (lookupAssoc ct d).getD "text")])) from rfl]
      rw [if_neg (by simp [hd]), if_neg (by simp [hfd]),
        ih c post _ (fun x hx => hpre x (by simp [hx])) hc hfc]
      simp [List.filter_cons, hd, List.append_assoc]

theorem chunksOfAux_flatten {α : Type} :
    ∀ (fuel n : Nat) (xs : List α), 0 < n → xs.length ≤ fuel →
    (chunksOfAux fuel n xs).flatten = xs := by
  intro fuel
  induction fuel with
  | zero =>
    intro n xs hn hx
    have hnil : xs = [] := List.eq_nil_of_length_eq_zero (Nat.le_zero.mp hx)
    subst hnil; rfl
  | succ f ih =>
    intro n xs hn hx
    cases xs with
    | nil => rfl
    | cons x rest =>
      have hdrop : ((x :: rest).drop n).length ≤ f := by
        rw [List.length_drop]
        simp only [List.length_cons] at hx ⊢
        omega
      simp only [chunksOfAux, List.flatten_cons, ih n _ hn hdrop]
      exact List.take_append_drop n (x :: rest)

theorem chunksOf_flatten {α : Type} (n : Nat) (xs : List α) (hn : 0 < n) :
    (chunksOf n xs).flatten = xs := by
  unfold chunksOf
  rw [if_neg (by omega)]
  exact chunksOfAux_flatten xs.length n xs hn le_rfl

/-! ## Claim C5 -/

/-- C5: `extract_rows_from_payload` dispatches on the payload shape — an object
whose `dados` key holds an array uses that array as record source, a bare array
is used directly, any other object becomes one record, and a bare scalar becomes
a one-field record under the fixed key `valor`; in particular
`{"dados": [{"Nome": "Ana", "Idade": 30}]}` yields exactly the record
`{nome: "Ana", idade: 30}` with inferred types bounded text (`varchar(255)`)
for `nome` and `bigint` for `idade`. -/
theorem extract_rows_dispatch_and_example :
    (∀ (fields : JObj) (l : JArr), lookupJObj fields "dados" = some (JValue.arr l) →
      extract_rows_from_payload (JValue.obj fields) = (JArr.toList l).map rowOfItem) ∧
    (∀ l : JArr, extract_rows_from_payload (JValue.arr l) = (JArr.toList l).map rowOfItem) ∧
    (∀ fields : JObj, (∀ l : JArr, lookupJObj fields "dados" ≠ some (JValue.arr l)) →
      extract_rows_from_payload (JValue.obj fields) = [flatten_json fields ""]) ∧
    (∀ v : JValue, (∀ xs, v ≠ JValue.arr xs) → (∀ f, v ≠ JValue.obj f) →
      extract_rows_from_payload v = [[("valor", v)]]) ∧
    extract_rows_from_payload (JValue.obj (jobj [("dados", JValue.arr (jarr
      [JValue.obj (jobj [("Nome", JValue.str "Ana"), ("Idade", JValue.int 30)])]))])) =
      [[("nome", JValue.str "Ana"), ("idade", JValue.int 30)]] ∧
    resolve_col_types (extract_rows_from_payload (JValue.obj (jobj [("dados", JValue.arr (jarr
      [JValue.obj (jobj [("Nome", JValue.str "Ana"), ("Idade", JValue.int 30)])]))]))) =
      [("idade", "bigint"), ("nome", "varchar(255)")] := by
  refine ⟨?_, ?_, ?_, ?_, ?_, ?_⟩
  · intro fields l h
    simp [extract_rows_from_payload, h]
  · intro l
    rfl
  · intro fields h
    unfold extract_rows_from_payload
    cases hl : lookupJObj fields "dados" with
    | none => simp [rowOfItem]
    | some v =>
      cases v with
      | arr l => exact absurd hl (h l)
      | null => simp [rowOfItem]
      | bool b => simp [rowOfItem]
      | int n => simp [rowOfItem]
      | num q => simp [rowOfItem]
      | str s => simp [rowOfItem]
      | obj g => simp [rowOfItem]
  · intro v hva hvo
    cases v with
    | arr xs => exact absurd rfl (hva xs)
    | obj f => exact absurd rfl (hvo f)
    | null => rfl
    | bool b => rfl
    | int n => rfl
    | num q => rfl
    | str s => rfl
  · decide
  · decide

/-- Witness for C5: the `dados`-array dispatch applied at a concrete payload. -/
theorem extract_rows_dispatch_witness :
    extract_rows_from_payload (JValue.obj (jobj [("dados", JValue.arr JArr.nil)])) = [] :=
  extract_rows_dispatch_and_example.1 (jobj [("dados", JValue.arr JArr.nil)]) JArr.nil rfl

/-! ## Claim C6 -/

/-- C6: `drop_orphan_schemas` drops exactly the catalog namespaces that survive
the query filter (no `pg_%` names, no `information_schema`) and are neither in
the keep set (stripped configured names plus the protected set) nor protected
nor failing, and returns the number dropped; a protected namespace is never
dropped regardless of the keep set, and a failing drop does not abort the
remaining drops (every non-failing schema after it is still dropped). -/
theorem drop_orphan_schemas_spec (failDrop : String → Bool) (catalog keep_schemas : List String) :
    (drop_orphan_schemas failDrop catalog keep_schemas).2 =
      (catalog.filter fun s => !(likePgAny s) && !(s == "information_schema")).filter
        (fun s => !(strInList s (keepSetOf keep_schemas)) && !(strInList s protected_schemas) &&
          !(failDrop s)) ∧
    (drop_orphan_schemas failDrop catalog keep_schemas).1 =
      (drop_orphan_schemas failDrop catalog keep_schemas).2.length ∧
    (∀ s, strInList s protected_schemas = true →
      s ∉ (drop_orphan_schemas failDrop catalog keep_schemas).2) ∧
    ((∀ s, failDrop s = false) →
      (drop_orphan_schemas failDrop catalog keep_schemas).2 =
        (catalog.filter fun s => !(likePgAny s) && !(s == "information_schema")).filter
          (fun s => !(strInList s (keepSetOf keep_schemas)) &&
            !(strInList s protected_schemas))) := by
  have key := dropLoop_eq_filter failDrop (keepSetOf keep_schemas)
    (catalog.filter fun s => !(likePgAny s) && !(s == "information_schema"))
  refine ⟨?_, ?_, ?_, ?_⟩
  · unfold drop_orphan_schemas
    rw [key]
  · unfold drop_orphan_schemas
    rw [key]
  · intro s hs hmem
    unfold drop_orphan_schemas at hmem
    rw [key] at hmem
    have hcond := List.of_mem_filter hmem
    rw [hs] at hcond
    simp at hcond
  · intro hf
    unfold drop_orphan_schemas
    rw [key]
    apply List.filter_congr
    intro s _
    rw [hf s]
    simp

/-- Witness for C6 at a concrete catalog: of the five catalog entries, only
`cliente_b` is dropped (protected names and the kept name survive, the query
filter removes `information_schema`). -/
theorem drop_orphan_schemas_spec_witness :
    (drop_orphan_schemas (fun _ => false)
      ["public", "pg_toast", "cliente_a", "cliente_b", "information_schema"]
      ["cliente_a"]).2 = ["cliente_b"] := by
  rw [(drop_orphan_schemas_spec (fun _ => false)
    ["public", "pg_toast", "cliente_a", "cliente_b", "information_schema"]
    ["cliente_a"]).2.2.2 (fun s => rfl)]
  decide

/-! ## Claim C9 -/

/-- C9: `insert_rows_batch` defaults `recreate_table_each_run` to true; with the
default in force and a non-empty record list the result is independent of the
prior database state (the target table is dropped first, so earlier inserts are
discarded); prior contents survive when the caller passes false, as `run_cycle`
does: the prior rows stay as a prefix and the new rows are appended. -/
theorem insert_rows_batch_recreate_semantics :
    insert_rows_batch_recreate_default = true ∧
    run_cycle_recreate_arg = false ∧
    (∀ failAdd failChunk endpoint rows batch_size (db db' : Db), rows ≠ [] →
      insert_rows_batch failAdd failChunk endpoint rows batch_size
        insert_rows_batch_recreate_default db =
      insert_rows_batch failAdd failChunk endpoint rows batch_size
        insert_rows_batch_recreate_default db') ∧
    (∀ endpoint rows batch_size (t : DbTable), rows ≠ [] → 0 < batch_size →
      insert_rows_batch (fun _ => false) (fun _ => false) endpoint rows batch_size
        run_cycle_recreate_arg ⟨true, some t⟩ =
      (⟨true, some ⟨t.cols ++ ((all_cols_of rows).filter
            (fun c => !(strInList c (base_cols ++ t.cols.map Prod.fst)))).map
            (fun c => (c, (lookupAssoc (resolve_col_types rows) c).getD "text")),
          t.rows ++ rows.map (rowTuple endpoint (all_cols_of rows))⟩⟩,
        Except.ok rows.length)) := by
  refine ⟨rfl, rfl, ?_, ?_⟩
  · intro failAdd failChunk endpoint rows batch_size db db' hrows
    simp [insert_rows_batch, insert_rows_batch_recreate_default, hrows]
  · intro endpoint rows batch_size t hrows hbs
    unfold insert_rows_batch run_cycle_recreate_arg
    rw [if_neg hrows]
    simp only [Bool.false_eq_true, if_false]
    rw [addColumnsLoop_no_fail _ _ _ (fun c => rfl) _ _,
      runChunks_no_fail _ _ _ (fun k => rfl) _ _ _ _,
      chunksOf_flatten _ _ hbs]
    simp

/-- Witness for C9: with `recreate` as passed by the run loop, a pre-existing
row survives and the new row is appended. -/
theorem insert_rows_batch_recreate_semantics_witness :
    insert_rows_batch (fun _ => false) (fun _ => false) "ep" [[("a", JValue.str "x")]] 500
      run_cycle_recreate_arg
      ⟨true, some ⟨[("a", "text")], [("ep", [some (JValue.str "w")])]⟩⟩ =
    (⟨true, some ⟨[("a", "text")],
        [("ep", [some (JValue.str "w")]), ("ep", [some (JValue.str "x")])]⟩⟩,
      Except.ok 1) := by
  rw [insert_rows_batch_recreate_semantics.2.2.2 "ep" [[("a", JValue.str "x")]] 500
    ⟨[("a", "text")], [("ep", [some (JValue.str "w")])]⟩
    (by simp) (by omega)]
  rfl

/-! ## Claim C3 -/

/-- C3 (counterexample): with `batch_size = 1` and two records, chunk 0 succeeds
and chunk 1 raises; the claim says chunk 0's record remains committed, but the
code commits only once after the whole loop (`src/pg_service.py:270`), so the
committed table still has no rows — the first chunk's tuple is absent. -/
theorem insert_rows_batch_chunk_failure_discards_earlier_chunks :
    insert_rows_batch (fun _ => false) (fun k => k == 1) "ep"
      [[("a", JValue.str "x")], [("a", JValue.str "y")]] 1 false ⟨false, none⟩ =
      (⟨true, some ⟨[("a", "varchar(255)")], []⟩⟩, Except.error ()) ∧
    rowTuple "ep" ["a"] [("a", JValue.str "x")] ∉ ([] : List PgTuple) :=
  ⟨rfl, by simp⟩

/-- C3 (amended): the chunk loop of `insert_rows_batch` runs inside a single
transaction committed once after all chunks: with no failure every chunk's
records are appended to the table and the call returns the full record count;
if inserting chunk K fails (any K, first failing index), nothing from this call
is committed — the records of chunks 1..K-1 included — and the error
propagates. -/
theorem insert_rows_batch_single_commit :
    (∀ endpoint rows batch_size (t : DbTable), rows ≠ [] → 0 < batch_size →
      ∃ newCols,
        insert_rows_batch (fun _ => false) (fun _ => false) endpoint rows batch_size false
          ⟨true, some t⟩ =
        (⟨true, some ⟨newCols, t.rows ++ rows.map (rowTuple endpoint (all_cols_of rows))⟩⟩,
          Except.ok rows.length)) ∧
    (∀ failChunk endpoint rows batch_size (t : DbTable) k, rows ≠ [] →
      k < (chunksOf batch_size rows).length → failChunk k = true →
      (∀ j, j < k → failChunk j = false) →
      ∃ newCols,
        insert_rows_batch (fun _ => false) failChunk endpoint rows batch_size false
          ⟨true, some t⟩ =
        (⟨true, some ⟨newCols, t.rows⟩⟩, Except.error ())) := by
  constructor
  · intro endpoint rows batch_size t hrows hbs
    refine ⟨t.cols ++ ((all_cols_of rows).filter
      (fun c => !(strInList c (base_cols ++ t.cols.map Prod.fst)))).map
      (fun c => (c, (lookupAssoc (resolve_col_types rows) c).getD "text")), ?_⟩
    unfold insert_rows_batch
    rw [if_neg hrows]
    simp only [Bool.false_eq_true, if_false]
    rw [addColumnsLoop_no_fail _ _ _ (fun c => rfl) _ _,
      runChunks_no_fail _ _ _ (fun k => rfl) _ _ _ _,
      chunksOf_flatten _ _ hbs]
    simp
  · intro failChunk endpoint rows batch_size t k hrows hk hfk hfj
    refine ⟨t.cols ++ ((all_cols_of rows).filter
      (fun c => !(strInList c (base_cols ++ t.cols.map Prod.fst)))).map
      (fun c => (c, (lookupAssoc (resolve_col_types rows) c).getD "text")), ?_⟩
    unfold insert_rows_batch
    rw [if_neg hrows]
    simp only [Bool.false_eq_true, if_false]
    rw [addColumnsLoop_no_fail _ _ _ (fun c => rfl) _ _,
      runChunks_first_fail failChunk endpoint (all_cols_of rows) (chunksOf batch_size rows)
        0 k [] 0 hk (by simpa using hfk) (fun j hj => by simpa using hfj j hj)]

/-- Witness for C3 (amended): chunk 1 of two single-record chunks fails, and the
call reports the error (nothing committed). -/
theorem insert_rows_batch_single_commit_witness :
    (insert_rows_batch (fun _ => false) (fun k => k == 1) "ep"
      [[("a", JValue.str "x")], [("a", JValue.str "y")]] 1 false
      ⟨true, some ⟨[], []⟩⟩).2 = Except.error () := by
  obtain ⟨newCols, h⟩ := insert_rows_batch_single_commit.2 (fun k => k == 1) "ep"
    [[("a", JValue.str "x")], [("a", JValue.str "y")]] 1 ⟨[], []⟩ 1
    (by simp) (by decide) rfl
    (fun j hj => by
      have hj0 : j = 0 := by omega
      subst hj0; rfl)
  rw [h]

/-! ## Claim C8 -/

/-- C8 (counterexample): adding column `b` fails while reconciling the three
absent columns `a`, `b`, `c`; the claim says the failure is isolated, but the
loop of `src/pg_service.py:239-241` has no exception handling, so `c` is never
added (only `a` is), no row is inserted, and the error propagates to the
caller. -/
theorem add_column_failure_not_isolated_cex :
    insert_rows_batch (fun c => c == "b") (fun _ => false) "ep"
      [[("a", JValue.str "x"), ("b", JValue.str "y"), ("c", JValue.str "z")]] 500 true
      ⟨false, none⟩ =
      (⟨true, some ⟨[("a", "varchar(255)")], []⟩⟩, Except.error ()) ∧
    ("c", "varchar(255)") ∉ [("a", "varchar(255)")] ∧
    ([] : List PgTuple).length = 0 :=
  ⟨rfl, by decide, rfl⟩

/-- C8 (amended): when no add fails, every required column absent from the
existing set is added with its resolved type (and the subsequent insert runs);
but a failure while adding one column is not isolated: the columns after it in
the loop order are not added, the insert is not performed, and the error
propagates out of `insert_rows_batch` with the table keeping only the columns
added before the failure. -/
theorem add_column_failure_aborts :
    (∀ (failAdd : String → Bool) existing ct cols acc, (∀ c, failAdd c = false) →
      addColumnsLoop failAdd existing ct cols acc =
        Except.ok (acc ++ (cols.filter fun c => !(strInList c existing)).map
          (fun c => (c, (lookupAssoc ct c).getD "text")))) ∧
    (∀ (failAdd : String → Bool) existing ct pre c post acc,
      (∀ d ∈ pre, failAdd d = false) → strInList c existing = false → failAdd c = true →
      addColumnsLoop failAdd existing ct (pre ++ c :: post) acc =
        Except.error (acc ++ (pre.filter fun d => !(strInList d existing)).map
          (fun d => (d, (lookupAssoc ct d).getD "text")))) ∧
    (∀ failAdd failChunk endpoint rows batch_size (t : DbTable) partialCols, rows ≠ [] →
      addColumnsLoop failAdd (base_cols ++ t.cols.map Prod.fst) (resolve_col_types rows)
        (all_cols_of rows) t.cols = Except.error partialCols →
      insert_rows_batch failAdd failChunk endpoint rows batch_size false ⟨true, some t⟩ =
        (⟨true, some ⟨partialCols, t.rows⟩⟩, Except.error ())) := by
  refine ⟨?_, ?_, ?_⟩
  · intro failAdd existing ct cols acc hf
    exact addColumnsLoop_no_fail failAdd existing ct hf cols acc
  · intro failAdd existing ct pre c post acc hpre hc hfc
    exact addColumnsLoop_first_fail failAdd existing ct pre c post acc hpre hc hfc
  · intro failAdd failChunk endpoint rows batch_size t partialCols hrows herr
    unfold insert_rows_batch
    rw [if_neg hrows]
    simp only [Bool.false_eq_true, if_false]
    rw [herr]

/-- Witness for C8 (amended): the abort case applied at a concrete batch where
adding `b` fails after `a` was added. -/
theorem add_column_failure_aborts_witness :
    insert_rows_batch (fun c => c == "b") (fun _ => false) "ep"
      [[("a", JValue.str "x"), ("b", JValue.str "y"), ("c", JValue.str "z")]] 500 false
      ⟨true, some ⟨[], []⟩⟩ =
      (⟨true, some ⟨[("a", "varchar(255)")], []⟩⟩, Except.error ()) :=
  add_column_failure_aborts.2.2 (fun c => c == "b") (fun _ => false) "ep"
    [[("a", JValue.str "x"), ("b", JValue.str "y"), ("c", JValue.str "z")]] 500
    ⟨[], []⟩ [("a", "varchar(255)")] (by simp) rfl

/-! ## Helper lemmas for the sanitizer (claim C1) -/

theorem toNat_ofNat_small (n : Nat) (h : n < 55296) : (Char.ofNat n).toNat = n := by
  have hv : n.isValidChar := Or.inl h
  rw [Char.ofNat, dif_pos hv]
  rfl

theorem lowerChar_ident (c : Char) (h : isWordChar c = true) :
    isIdentChar (lowerChar c) = true := by
  unfold lowerChar isIdentChar
  by_cases hu : (65 ≤ c.toNat && c.toNat ≤ 90) = true
  · rw [if_pos hu]
    simp only [Bool.and_eq_true, decide_eq_true_eq] at hu
    rw [toNat_ofNat_small (c.toNat + 32) (by omega)]
    simp only [Bool.or_eq_true, Bool.and_eq_true, decide_eq_true_eq, beq_iff_eq]
    omega
  · rw [if_neg hu]
    simp only [isWordChar, Bool.or_eq_true, Bool.and_eq_true, decide_eq_true_eq,
      beq_iff_eq] at h
    simp only [Bool.and_eq_true, decide_eq_true_eq] at hu
    simp only [Bool.or_eq_true, Bool.and_eq_true, decide_eq_true_eq, beq_iff_eq]
    omega

theorem lowerChar_eq_self (c : Char) (h : isIdentChar c = true) : lowerChar c = c := by
  unfold lowerChar
  apply if_neg
  simp only [isIdentChar, Bool.or_eq_true, Bool.and_eq_true, decide_eq_true_eq,
    beq_iff_eq] at h
  simp only [Bool.and_eq_true, decide_eq_true_eq, not_and]
  omega

theorem lowerChar_underscore_iff (c : Char) : lowerChar c = '_' ↔ c = '_' := by
  constructor
  · intro h
    unfold lowerChar at h
    by_cases hu : (65 ≤ c.toNat && c.toNat ≤ 90) = true
    · exfalso
      rw [if_pos hu] at h
      simp only [Bool.and_eq_true, decide_eq_true_eq] at hu
      have h1 := congrArg Char.toNat h
      rw [toNat_ofNat_small (c.toNat + 32) (by omega)] at h1
      have h2 : ('_' : Char).toNat = 95 := rfl
      omega
    · rw [if_neg hu] at h
      exact h
  · intro h
    subst h
    rfl

theorem ident_not_space (c : Char) (h : isIdentChar c = true) : pyIsSpace c = false := by
  simp only [isIdentChar, Bool.or_eq_true, Bool.and_eq_true, decide_eq_true_eq,
    beq_iff_eq] at h
  cases hs : pyIsSpace c
  · rfl
  · exfalso
    simp only [pyIsSpace, Bool.or_eq_true, Bool.and_eq_true, decide_eq_true_eq,
      beq_iff_eq] at hs
    omega

theorem ident_word (c : Char) (h : isIdentChar c = true) : isWordChar c = true := by
  simp only [isIdentChar, Bool.or_eq_true, Bool.and_eq_true, decide_eq_true_eq,
    beq_iff_eq] at h
  simp only [isWordChar, Bool.or_eq_true, Bool.and_eq_true, decide_eq_true_eq, beq_iff_eq]
  omega

theorem ident_not_underscore_toNat (c : Char) (h : c ≠ '_') : c.toNat ≠ 95 := by
  intro hn
  apply h
  have : c = Char.ofNat 95 := by
    apply Char.eq_of_val_eq
    apply UInt32.toNat.inj
    rw [show (Char.ofNat 95).val.toNat = (Char.ofNat 95).toNat from rfl,
      toNat_ofNat_small 95 (by omega)]
    exact hn
  rw [this]

theorem mem_subRunsAux (cs : List Char) : ∀ (f : Bool), ∀ c ∈ subRunsAux f cs,
    isWordChar c = true := by
  induction cs with
  | nil => intro f c hc; simp [subRunsAux] at hc
  | cons a rest ih =>
    intro f c hc
    unfold subRunsAux at hc
    by_cases hw : isWordChar a = true
    · rw [if_pos hw] at hc
      rcases List.mem_cons.mp hc with h | h
      · subst h; exact hw
      · exact ih false c h
    · rw [if_neg hw] at hc
      by_cases hf : f = true
      · rw [if_pos (by simp [hf])] at hc
        exact ih true c hc
      · rw [if_neg (by simp [hf])] at hc
        rcases List.mem_cons.mp hc with h | h
        · subst h; decide
        · exact ih true c h

theorem mem_collapseAux (cs : List Char) (hall : ∀ c ∈ cs, isWordChar c = true) :
    ∀ (f : Bool), ∀ c ∈ collapseAux f cs, isWordChar c = true := by
  induction cs with
  | nil => intro f c hc; simp [collapseAux] at hc
  | cons a rest ih =>
    intro f c hc
    have hrest : ∀ c ∈ rest, isWordChar c = true := fun c hc => hall c (by simp [hc])
    unfold collapseAux at hc
    by_cases ha : (a == '_') = true
    · rw [if_pos ha] at hc
      by_cases hf : f = true
      · rw [if_pos (by simp [hf])] at hc
        exact ih hrest true c hc
      · rw [if_neg (by simp [hf])] at hc
        rcases List.mem_cons.mp hc with h | h
        · subst h; decide
        · exact ih hrest true c h
    · rw [if_neg ha] at hc
      rcases List.mem_cons.mp hc with h | h
      · subst h; exact hall _ (by simp)
      · exact ih hrest false c h

theorem mem_dropWhile {p : Char → Bool} {cs : List Char} :
    ∀ c ∈ cs.dropWhile p, c ∈ cs :=
  fun _ hc => (List.dropWhile_sublist _).subset hc

theorem mem_rdropWhile {p : Char → Bool} {cs : List Char} :
    ∀ c ∈ List.rdropWhile p cs, c ∈ cs := by
  intro c hc
  unfold List.rdropWhile at hc
  rw [List.mem_reverse] at hc
  have h2 := (List.dropWhile_sublist _).subset hc
  rwa [List.mem_reverse] at h2

theorem mem_pyStrip {p : Char → Bool} {cs : List Char} :
    ∀ c ∈ pyStrip p cs, c ∈ cs :=
  fun c hc => mem_dropWhile c (mem_rdropWhile c hc)

theorem head_dropWhile_not {p : Char → Bool} {cs : List Char} {c : Char}
    (h : (cs.dropWhile p).head? = some c) : p c = false := by
  induction cs with
  | nil => simp at h
  | cons a rest ih =>
    rw [List.dropWhile_cons] at h
    by_cases ha : p a = true
    · rw [if_pos (by simp [ha])] at h
      exact ih h
    · rw [if_neg (by simp [ha])] at h
      simp only [List.head?_cons, Option.some.injEq] at h
      subst h
      simpa using ha

theorem head_of_isPrefix {l₁ l₂ : List Char} (h : l₁ <+: l₂) {c : Char}
    (hh : l₁.head? = some c) : l₂.head? = some c := by
  obtain ⟨t, rfl⟩ := h
  cases l₁ with
  | nil => simp at hh
  | cons a r => simpa using hh

theorem head_pyStrip_not {p : Char → Bool} {cs : List Char} {c : Char}
    (h : (pyStrip p cs).head? = some c) : p c = false := by
  have hpre : List.rdropWhile p (cs.dropWhile p) <+: cs.dropWhile p :=
    List.rdropWhile_prefix p _
  exact head_dropWhile_not (head_of_isPrefix hpre h)

theorem getLast_pyStrip_not {p : Char → Bool} {cs : List Char} {c : Char}
    (h : (pyStrip p cs).getLast? = some c) : p c = false := by
  unfold pyStrip List.rdropWhile at h
  rw [List.getLast?_reverse] at h
  exact head_dropWhile_not h

theorem dropWhile_eq_self_of_head {p : Char → Bool} {cs : List Char}
    (h : ∀ c, cs.head? = some c → p c = false) : cs.dropWhile p = cs := by
  cases cs with
  | nil => rfl
  | cons a rest =>
    rw [List.dropWhile_cons, if_neg]
    simp [h a rfl]

theorem pyStrip_eq_self {p : Char → Bool} {cs : List Char}
    (hh : ∀ c, cs.head? = some c → p c = false)
    (hl : ∀ c, cs.getLast? = some c → p c = false) : pyStrip p cs = cs := by
  unfold pyStrip
  rw [dropWhile_eq_self_of_head hh]
  rw [List.rdropWhile_eq_self_iff.mpr]
  intro hne
  have hg := List.getLast?_eq_getLast cs hne
  simp [hl (cs.getLast hne) hg]

theorem subRunsAux_eq_self {cs : List Char} (h : ∀ c ∈ cs, isWordChar c = true) :
    subRunsAux false cs = cs := by
  induction cs with
  | nil => rfl
  | cons a rest ih =>
    unfold subRunsAux
    rw [if_pos (h a (by simp))]
    rw [ih (fun c hc => h c (by simp [hc]))]

theorem collapseAux_head_true (cs : List Char) :
    ∀ c, (collapseAux true cs).head? = some c → c ≠ '_' := by
  induction cs with
  | nil => intro c h; simp [collapseAux] at h
  | cons a rest ih =>
    intro c h
    by_cases ha : (a == '_') = true
    · have hstep : collapseAux true (a :: rest) = collapseAux true rest := by
        simp [collapseAux, ha]
      rw [hstep] at h
      exact ih c h
    · have hstep : collapseAux true (a :: rest) = a :: collapseAux false rest := by
        simp [collapseAux, ha]
      rw [hstep] at h
      simp only [List.head?_cons, Option.some.injEq] at h
      subst h
      simpa using ha

theorem collapseAux_chain (cs : List Char) : ∀ f, List.Chain' noAdjR (collapseAux f cs) := by
  induction cs with
  | nil => intro f; simp [collapseAux]
  | cons a rest ih =>
    intro f
    by_cases ha : (a == '_') = true
    · by_cases hf : f = true
      · have hstep : collapseAux f (a :: rest) = collapseAux true rest := by
          simp [collapseAux, ha, hf]
        rw [hstep]
        exact ih true
      · have hstep : collapseAux f (a :: rest) = '_' :: collapseAux true rest := by
          simp [collapseAux, ha, hf]
        rw [hstep, List.chain'_cons']
        refine ⟨?_, ih true⟩
        intro b hb
        have hb' : (collapseAux true rest).head? = some b := hb
        have hbne := collapseAux_head_true rest b hb'
        exact fun hcon => hbne hcon.2
    · have hstep : collapseAux f (a :: rest) = a :: collapseAux false rest := by
        simp [collapseAux, ha]
      rw [hstep, List.chain'_cons']
      refine ⟨?_, ih false⟩
      intro b hb
      have ha' : ¬ a = '_' := by simpa using ha
      exact fun hcon => ha' hcon.1

theorem collapseAux_true_eq_false {cs : List Char}
    (h : ∀ c, cs.head? = some c → c ≠ '_') : collapseAux true cs = collapseAux false cs := by
  cases cs with
  | nil => rfl
  | cons a rest =>
    have ha : ¬ (a == '_') = true := by
      simpa using h a rfl
    simp [collapseAux, ha]

theorem collapseAux_eq_self {cs : List Char} (h : List.Chain' noAdjR cs) :
    collapseAux false cs = cs := by
  induction cs with
  | nil => rfl
  | cons a rest ih =>
    have hpair := (List.chain'_cons'.mp h).1
    have htail := (List.chain'_cons'.mp h).2
    by_cases ha : (a == '_') = true
    · have ha' : a = '_' := by simpa using ha
      have hstep : collapseAux false (a :: rest) = '_' :: collapseAux true rest := by
        simp [collapseAux, ha]
      rw [hstep, ha']
      congr 1
      have hresthead : ∀ c, rest.head? = some c → c ≠ '_' := by
        intro c hc
        have := hpair c hc
        subst ha'
        intro hceq
        exact this ⟨rfl, hceq⟩
      rw [collapseAux_true_eq_false hresthead]
      exact ih htail
    · have hstep : collapseAux false (a :: rest) = a :: collapseAux false rest := by
        simp [collapseAux, ha]
      rw [hstep]
      congr 1
      exact ih htail

theorem chain_dropWhile {p : Char → Bool} {cs : List Char} (h : List.Chain' noAdjR cs) :
    List.Chain' noAdjR (cs.dropWhile p) := by
  induction cs with
  | nil => simp
  | cons a rest ih =>
    rw [List.dropWhile_cons]
    by_cases hp : p a = true
    · rw [if_pos (by simp [hp])]
      exact ih (List.chain'_cons'.mp h).2
    · rw [if_neg (by simp [hp])]
      exact h

theorem chain_rev {cs : List Char} (h : List.Chain' noAdjR cs) :
    List.Chain' noAdjR cs.reverse := by
  rw [List.chain'_reverse]
  exact h.imp (fun a b hab => fun hcon => hab ⟨hcon.2, hcon.1⟩)

theorem chain_pyStrip {p : Char → Bool} {cs : List Char} (h : List.Chain' noAdjR cs) :
    List.Chain' noAdjR (pyStrip p cs) := by
  unfold pyStrip List.rdropWhile
  exact chain_rev (chain_dropWhile (chain_rev (chain_dropWhile h)))

theorem chain_map_lower {cs : List Char} (h : List.Chain' noAdjR cs) :
    List.Chain' noAdjR (cs.map lowerChar) := by
  rw [List.chain'_map]
  refine h.imp (fun a b hab => ?_)
  intro hcon
  exact hab ⟨(lowerChar_underscore_iff a).mp hcon.1, (lowerChar_underscore_iff b).mp hcon.2⟩

theorem head_take_pos {cs : List Char} {n : Nat} (hn : 0 < n) :
    (cs.take n).head? = cs.head? := by
  cases cs with
  | nil => simp
  | cons a t =>
    cases n with
    | zero => omega
    | succ m => simp

theorem mem_of_head?_some {cs : List Char} {c : Char} (h : cs.head? = some c) : c ∈ cs := by
  cases cs with
  | nil => simp at h
  | cons a t =>
    simp only [List.head?_cons, Option.some.injEq] at h
    simp [h.symm]

theorem mem_of_getLast?_some {cs : List Char} {c : Char} (h : cs.getLast? = some c) :
    c ∈ cs := by
  induction cs with
  | nil => simp at h
  | cons a t ih =>
    cases t with
    | nil =>
      simp only [List.getLast?_singleton, Option.some.injEq] at h
      simp [h.symm]
    | cons b u =>
      rw [List.getLast?_cons_cons] at h
      simp [ih h]

theorem digit_ne_underscore {c : Char} (hd : isDigitChar c = true) : c ≠ '_' := by
  intro h
  subst h
  simp [isDigitChar] at hd

theorem digitGuard_props (s3 : List Char) (hne : s3 ≠ [])
    (hid : ∀ c ∈ s3, isIdentChar c = true)
    (hhead : ∀ c, s3.head? = some c → c ≠ '_')
    (hchain : List.Chain' noAdjR s3) :
    digitGuard s3 ≠ [] ∧ (∀ c ∈ digitGuard s3, isIdentChar c = true) ∧
    (∀ c, (digitGuard s3).head? = some c → c ≠ '_' ∧ isDigitChar c = false) ∧
    List.Chain' noAdjR (digitGuard s3) := by
  obtain ⟨c0, t, rfl⟩ := List.exists_cons_of_ne_nil hne
  simp only [digitGuard]
  by_cases hd : isDigitChar c0 = true
  · rw [if_pos hd]
    refine ⟨by simp, ?_, ?_, ?_⟩
    · intro c hc
      rcases List.mem_cons.mp hc with h | hc2
      · subst h; decide
      rcases List.mem_cons.mp hc2 with h | hc3
      · subst h; decide
      · exact hid c hc3
    · intro c h
      simp only [List.head?_cons, Option.some.injEq] at h
      subst h
      exact ⟨by decide, by decide⟩
    · refine List.chain'_cons'.mpr ⟨?_, List.chain'_cons'.mpr ⟨?_, hchain⟩⟩
      · intro b hb
        intro hcon
        exact absurd hcon.1 (by decide)
      · intro b hb
        have hb' : b = c0 := by
          simp only [List.head?_cons, Option.mem_def, Option.some.injEq] at hb
          exact hb.symm
        subst hb'
        intro hcon
        exact digit_ne_underscore hd hcon.2
  · rw [if_neg hd]
    refine ⟨by simp, hid, ?_, hchain⟩
    intro c h
    refine ⟨hhead c h, ?_⟩
    simp only [List.head?_cons, Option.some.injEq] at h
    subst h
    simpa using hd

theorem sanitizeChars_props (cs : List Char) :
    sanitizeChars cs ≠ [] ∧
    (∀ c ∈ sanitizeChars cs, isIdentChar c = true) ∧
    (∀ c, (sanitizeChars cs).head? = some c → c ≠ '_' ∧ isDigitChar c = false) ∧
    List.Chain' noAdjR (sanitizeChars cs) ∧
    (sanitizeChars cs).length ≤ 63 := by
  unfold sanitizeChars
  set u1 := pyStrip pyIsSpace cs with hu1
  set s1 := subRunsAux false u1 with hs1
  set w := collapseAux false s1 with hw
  set v := pyStrip (fun c => c == '_') w with hv
  set s2 := List.map lowerChar v with hs2
  have hs1word : ∀ c ∈ s1, isWordChar c = true := mem_subRunsAux u1 false
  have hwword : ∀ c ∈ w, isWordChar c = true := mem_collapseAux s1 hs1word false
  have hvword : ∀ c ∈ v, isWordChar c = true := fun c hc => hwword c (mem_pyStrip c hc)
  have hs2id : ∀ c ∈ s2, isIdentChar c = true := by
    intro c hc
    rw [hs2] at hc
    obtain ⟨c0, hc0, rfl⟩ := List.mem_map.mp hc
    exact lowerChar_ident c0 (hvword c0 hc0)
  have hs2chain : List.Chain' noAdjR s2 :=
    chain_map_lower (chain_pyStrip (collapseAux_chain s1 false))
  have hs2head : ∀ c, s2.head? = some c → c ≠ '_' := by
    intro c hc
    rw [hs2, List.head?_map] at hc
    cases hv0 : v.head? with
    | none => rw [hv0] at hc; simp at hc
    | some c0 =>
      rw [hv0] at hc
      simp only [Option.map_some', Option.some.injEq] at hc
      have hne := head_pyStrip_not hv0
      intro hceq
      rw [← hc] at hceq
      have hc0u : c0 = '_' := (lowerChar_underscore_iff c0).mp hceq
      rw [hc0u] at hne
      simp at hne
  set s3 := if s2 = [] then ['c', 'o', 'l'] else s2 with hs3
  have hs3props : s3 ≠ [] ∧ (∀ c ∈ s3, isIdentChar c = true) ∧
      (∀ c, s3.head? = some c → c ≠ '_') ∧ List.Chain' noAdjR s3 := by
    by_cases h2 : s2 = []
    · rw [hs3, if_pos h2]
      refine ⟨by simp, by decide, ?_, ?_⟩
      · intro c h
        simp only [List.head?_cons, Option.some.injEq] at h
        subst h
        decide
      · refine List.chain'_cons'.mpr ⟨?_, List.chain'_cons'.mpr ⟨?_, ?_⟩⟩
        · intro b hb hcon
          exact absurd hcon.1 (by decide)
        · intro b hb hcon
          exact absurd hcon.1 (by decide)
        · simp
    · rw [hs3, if_neg h2]
      exact ⟨h2, hs2id, hs2head, hs2chain⟩
  obtain ⟨hne3, hid3, hhead3, hchain3⟩ := hs3props
  obtain ⟨hne4, hid4, hhead4, hchain4⟩ := digitGuard_props s3 hne3 hid3 hhead3 hchain3
  have hpos4 : 0 < (digitGuard s3).length := List.length_pos.mpr hne4
  refine ⟨?_, ?_, ?_, ?_, ?_⟩
  · intro hcon
    have hpos : 0 < (List.take 63 (digitGuard s3)).length := by
      rw [List.length_take]
      exact Nat.lt_min.mpr ⟨by omega, hpos4⟩
    rw [hcon] at hpos
    simp at hpos
  · intro c hc
    exact hid4 c (List.take_subset 63 _ hc)
  · intro c hcz
    rw [head_take_pos (by omega)] at hcz
    exact hhead4 c hcz
  · exact hchain4.take 63
  · rw [List.length_take]
    omega

theorem map_lowerChar_eq_self {cs : List Char} (h : ∀ c ∈ cs, isIdentChar c = true) :
    cs.map lowerChar = cs := by
  induction cs with
  | nil => rfl
  | cons a rest ih =>
    rw [List.map_cons, lowerChar_eq_self a (h a (by simp)),
      ih (fun c hc => h c (by simp [hc]))]

theorem sanitizeChars_fixed {cs : List Char}
    (hne : cs ≠ [])
    (hid : ∀ c ∈ cs, isIdentChar c = true)
    (hhead : ∀ c, cs.head? = some c → c ≠ '_' ∧ isDigitChar c = false)
    (hlast : cs.getLast? ≠ some '_')
    (hchain : List.Chain' noAdjR cs)
    (hlen : cs.length ≤ 63) :
    sanitizeChars cs = cs := by
  unfold sanitizeChars
  dsimp only
  have h1 : pyStrip pyIsSpace cs = cs := pyStrip_eq_self
    (fun c hc => ident_not_space c (hid c (mem_of_head?_some hc)))
    (fun c hc => ident_not_space c (hid c (mem_of_getLast?_some hc)))
  rw [h1]
  have h2 : subRunsAux false cs = cs :=
    subRunsAux_eq_self (fun c hc => ident_word c (hid c hc))
  rw [h2]
  have h3 : collapseAux false cs = cs := collapseAux_eq_self hchain
  rw [h3]
  have h4 : pyStrip (fun c => c == '_') cs = cs := pyStrip_eq_self
    (fun c hc => by simpa using (hhead c hc).1)
    (fun c hc => by
      have hcne : c ≠ '_' := by
        intro hceq
        rw [hceq] at hc
        exact hlast hc
      simpa using hcne)
  rw [h4]
  have h5 : List.map lowerChar cs = cs := map_lowerChar_eq_self hid
  rw [h5, if_neg hne]
  have h6 : digitGuard cs = cs := by
    obtain ⟨c0, t, rfl⟩ := List.exists_cons_of_ne_nil hne
    simp only [digitGuard]
    rw [if_neg (by simp [(hhead c0 rfl).2])]
  rw [h6]
  exact List.take_of_length_le hlen

/-! ## Claim C1 -/

set_option maxHeartbeats 2000000 in
/-- C1 (counterexample): for the 65-character raw key of 62 letters `a` followed
by `_bc`, sanitization truncates to 63 characters and leaves a trailing
underscore, so a second application strips that underscore and the result
differs — `sanitize` is not idempotent as claimed. -/
theorem sanitize_col_truncation_breaks_idempotence :
    sanitize_col (sanitize_col c1CexKey) ≠ sanitize_col c1CexKey := by decide

set_option maxHeartbeats 2000000 in
/-- C1 (amended): for every raw key `k`, `sanitize_col k` is non-empty, consists
only of lowercase letters, digits and underscores, does not start with a digit,
and has length at most 63; and whenever `sanitize_col k` does not end with an
underscore — in particular whenever no 63-character truncation occurred —
`sanitize_col (sanitize_col k) = sanitize_col k` (the 63-character truncation
can leave a trailing underscore, on which a second application differs, as the
counterexample shows). -/
theorem sanitize_col_grammar_and_idempotence (k : String) :
    (sanitize_col k).data ≠ [] ∧
    (∀ c ∈ (sanitize_col k).data, isIdentChar c = true) ∧
    (∀ c, (sanitize_col k).data.head? = some c → isDigitChar c = false) ∧
    (sanitize_col k).data.length ≤ 63 ∧
    ((sanitize_col k).data.getLast? ≠ some '_' →
      sanitize_col (sanitize_col k) = sanitize_col k) :=
  have hp := sanitizeChars_props k.data
  ⟨hp.1, hp.2.1, fun c hc => (hp.2.2.1 c hc).2, hp.2.2.2.2,
   fun hlast => congrArg String.mk
     (sanitizeChars_fixed hp.1 hp.2.1 hp.2.2.1 hlast hp.2.2.2.1 hp.2.2.2.2)⟩

/-- Witness for C1 (amended) at the raw key `"Nome Completo!"`, whose sanitized
form `nome_completo` does not end with an underscore. -/
theorem sanitize_col_grammar_witness :
    sanitize_col (sanitize_col "Nome Completo!") = sanitize_col "Nome Completo!" :=
  (sanitize_col_grammar_and_idempotence "Nome Completo!").2.2.2.2 (by decide)
